import Mathlib

/-!
Verification of the arcdashboard portfolio valuation pipeline.

This file gives a shallow embedding, in Lean 4, of the pure computational
core of the dashboard's client-side pipeline:

* the on-chain pool price computation (`fetchPriceFromPoolInternal`),
* the retry wrapper (`fetchWithRetry`),
* the rate-limited request queue's drain loop (`RequestQueue.processQueue`),
* the history store (`savePriceHistory`, `savePortfolioHistory`,
  `getTokenPriceChange`),
* the price resolution chain (`fetchTokenPrices`),
* the chart interpolation / series generator (`interpolateValue`,
  `generateInterpolatedData`).

Embedding conventions: JavaScript numbers are modelled as exact rationals
(`ℚ`) for prices/values and as integers (`ℤ`) for millisecond timestamps;
a JavaScript value that can be `null` is modelled as `Option`; an async
operation that can throw is modelled as a function returning `Option`
(`none` = rejection).  `Date.now()` is passed in explicitly as a `now`
parameter.  Time elapsed by `await delay(ms)` is recorded in an explicit
trace of delay amounts / start times.
-/

namespace ArcDashboard

/-- Entry of the per-token price history
(interface PriceHistoryEntry: price, value, timestamp). -/
structure PriceHistoryEntry where
  price : ℚ
  value : ℚ
  timestamp : ℤ
deriving DecidableEq, Repr

/-- One element of the per-token breakdown stored with each portfolio
history entry (tokens: address, value, price). -/
structure TokenShare where
  address : String
  value : ℚ
  price : ℚ
deriving DecidableEq, Repr

/-- Entry of the per-wallet portfolio history
(interface PortfolioHistoryEntry: totalValue, timestamp, tokens). -/
structure PortfolioHistoryEntry where
  totalValue : ℚ
  timestamp : ℤ
  tokens : List TokenShare
deriving DecidableEq, Repr

/-- The TokenPriceHistory object, keyed by lowercased token address;
modelled as an association list. -/
abbrev TokenPriceHistory := List (String × List PriceHistoryEntry)

/-- Result of the delta queries `getTokenPriceChange` /
`getTokenPriceOscillation`. -/
structure Delta where
  absoluteDelta : ℚ
  percentageDelta : ℚ
deriving DecidableEq, Repr

/-- Provenance tag of a resolved token price. -/
inductive PriceSource where
  | fixed
  | oracle
  | onChain
  | unknown
deriving DecidableEq, Repr

/-- One entry of the price map produced by `fetchTokenPrices`. -/
structure PriceInfo where
  price : ℚ
  source : PriceSource
  timestamp : ℤ
deriving DecidableEq, Repr

/-- A token as it enters price resolution: contract address plus an
optional symbol (the code guards `token.symbol?.toUpperCase() || ''`). -/
structure Token where
  contractAddress : String
  symbol : Option String
deriving DecidableEq, Repr

/-- ASCII lower-case mapping of one character.  The source uses
JavaScript's toLowerCase(); every string it is applied to in this
pipeline (hex addresses, ticker symbols) is ASCII, where the two
functions agree. -/
def charToLower (c : Char) : Char :=
  if 'A' ≤ c ∧ c ≤ 'Z' then Char.ofNat (c.toNat + 32) else c

/-- ASCII upper-case mapping of one character (JavaScript's
toUpperCase() on the ASCII ticker symbols of this pipeline). -/
def charToUpper (c : Char) : Char :=
  if 'a' ≤ c ∧ c ≤ 'z' then Char.ofNat (c.toNat - 32) else c

/-- String.prototype.toLowerCase() on ASCII strings. -/
def toLowerAscii (s : String) : String := ⟨s.data.map charToLower⟩

/-- String.prototype.toUpperCase() on ASCII strings. -/
def toUpperAscii (s : String) : String := ⟨s.data.map charToUpper⟩

/-- Constant USDC_ADDRESS: "0x3600...0000".toLowerCase(). -/
def USDC_ADDRESS : String :=
  toLowerAscii "0x3600000000000000000000000000000000000000"

/-- Constant STABLECOIN_SYMBOLS. -/
def STABLECOIN_SYMBOLS : List String :=
  ["USDC", "USDT", "DAI", "BUSD", "UST", "FRAX", "TUSD", "GUSD", "USDP", "SUSD"]

/-- Constant REQUEST_DELAY = 300 (ms). -/
def REQUEST_DELAY : ℕ := 300

/-- Constant MAX_RETRIES = 2. -/
def MAX_RETRIES : ℕ := 2

/-- Number of milliseconds in 30 days, the rolling retention window:
30 * 24 * 60 * 60 * 1000. -/
def thirtyDaysMs : ℤ := 30 * 24 * 60 * 60 * 1000

/-- Number of milliseconds in one hour: 60 * 60 * 1000. -/
def hourMs : ℤ := 60 * 60 * 1000

/-! ### On-chain pool price (fetchPriceFromPoolInternal) -/

/-- ethers' formatUnits followed by parseFloat: the raw integer reserve
divided by 10^decimals, taken as an exact rational. -/
def formatUnits (raw : ℕ) (decimals : ℕ) : ℚ :=
  (raw : ℚ) / 10 ^ decimals

/-- Core arithmetic of `fetchPriceFromPoolInternal` once the pool exists
and all reads succeeded: `isTokenA` is the comparison
`tokenAAddress.toLowerCase() === tokenAddress.toLowerCase()`;
`reserve0`/`reserve1` are the two raw reserves from `getReserves()`;
`tokenDecimals` is the queried token's decimals.  The token reserve is
reserve0 when the token is tokenA and reserve1 otherwise, the USDC
reserve the other one; both are normalized (USDC by 6 decimals), and the
price is usdcReserve / tokenReserve, with an explicit 0 result when the
normalized token reserve is 0. -/
def fetchPriceFromPoolCore (isTokenA : Bool) (reserve0 reserve1 : ℕ)
    (tokenDecimals : ℕ) : ℚ :=
  let tokenReserve := if isTokenA then reserve0 else reserve1
  let usdcReserve := if isTokenA then reserve1 else reserve0
  let tokenReserveFormatted := formatUnits tokenReserve tokenDecimals
  let usdcReserveFormatted := formatUnits usdcReserve 6
  if tokenReserveFormatted = 0 then 0
  else usdcReserveFormatted / tokenReserveFormatted

/-! ### Chart interpolation (WalletHistoryChart.interpolateValue) -/

/-- Linear interpolation of the stored portfolio series at a timestamp,
translated from `interpolateValue` in WalletHistoryChart.tsx: empty data
gives 0; a single sample gives its value; otherwise the samples at or
before the timestamp and strictly after it are separated, clamping to
`data[0]` / the last sample when one side is empty, and interpolating
between the last "before" sample and the first "after" sample otherwise
(with an explicit guard for a zero time difference). -/
def interpolateValue (timestamp : ℤ) (data : List PortfolioHistoryEntry) : ℚ :=
  match data with
  | [] => 0
  | [d] => d.totalValue
  | d₀ :: d₁ :: rest =>
    let all := d₀ :: d₁ :: rest
    let before := all.filter fun d => decide (d.timestamp ≤ timestamp)
    let after := all.filter fun d => decide (timestamp < d.timestamp)
    match before.getLast? with
    | none => d₀.totalValue
    | some prevPoint =>
      match after.head? with
      | none => (all.getLastD d₀).totalValue
      | some nextPoint =>
        let timeDiff := nextPoint.timestamp - prevPoint.timestamp
        if timeDiff = 0 then prevPoint.totalValue
        else
          let ratio : ℚ :=
            ((timestamp - prevPoint.timestamp : ℤ) : ℚ) / ((timeDiff : ℤ) : ℚ)
          prevPoint.totalValue +
            (nextPoint.totalValue - prevPoint.totalValue) * ratio

/-! ### Retry wrapper (fetchWithRetry) -/

/-- Loop body of `fetchWithRetry`, from attempt index `i` (0-based).  The
operation is modelled as `op : ℕ → Option α`, giving the outcome of each
attempt (`none` = the promise rejects).  The result pairs the returned
value (`none` = the final `return null`) with the trace of the waits
performed: after a failed attempt `i` with `i < retries - 1`, the code
awaits `delay(delayMs * (i + 1))`. -/
def fetchWithRetryGo (op : ℕ → Option α) (retries delayMs : ℕ) :
    ℕ → Option α × List ℕ
  | i =>
    if _h : i < retries then
      match op i with
      | some r => (some r, [])
      | none =>
        let rest := fetchWithRetryGo op retries delayMs (i + 1)
        if i < retries - 1 then (rest.1, delayMs * (i + 1) :: rest.2)
        else rest
    else (none, [])
termination_by i => retries - i
decreasing_by omega

/-- fetchWithRetry(fn, retries, delayMs): run the attempt loop from
attempt 0. -/
def fetchWithRetry (op : ℕ → Option α) (retries delayMs : ℕ) :
    Option α × List ℕ :=
  fetchWithRetryGo op retries delayMs 0

/-! ### Rate-limited request queue (RequestQueue.processQueue) -/

/-- Timed trace of the drain loop of `RequestQueue.processQueue`, for a
queue holding `durs` tasks (each entry the task's running time in ms;
an immediately-resolving task has duration 0), starting at task index
`i` and time `t`: each task is dispatched, awaited for its duration,
then `delay(d)` elapses before the next dispatch.  The trace lists
`(task index, dispatch start time)` pairs in dispatch order. -/
def drainTraceGo (d : ℕ) : List ℕ → ℕ → ℕ → List (ℕ × ℕ)
  | [], _, _ => []
  | dur :: rest, i, t => (i, t) :: drainTraceGo d rest (i + 1) (t + dur + d)

/-- Drain trace of a queue of tasks with durations `durs` and inter-call
delay `d`, starting from index 0 at time 0. -/
def drainTrace (d : ℕ) (durs : List ℕ) : List (ℕ × ℕ) :=
  drainTraceGo d durs 0 0

/-! ### History store (savePriceHistory / savePortfolioHistory) -/

/-- JavaScript's Array.prototype.slice(-n): the final `min n l.length`
elements of the list. -/
def sliceLast (n : ℕ) (l : List α) : List α :=
  l.drop (l.length - n)

/-- Pure core of `savePriceHistory`: for each token's entry list, keep
the entries with `timestamp >= now - 30d` and then the most recent 100
(`entries.filter(e => e.timestamp >= cutoff).slice(-100)`). -/
def savePriceHistoryCore (now : ℤ) (history : TokenPriceHistory) :
    TokenPriceHistory :=
  let cutoff := now - thirtyDaysMs
  history.map fun p =>
    (p.1, sliceLast 100 (p.2.filter fun e => decide (cutoff ≤ e.timestamp)))

/-- Pure core of `savePortfolioHistory`:
`history.filter(e => e.timestamp >= cutoff).slice(-500)`. -/
def savePortfolioHistoryCore (now : ℤ) (history : List PortfolioHistoryEntry) :
    List PortfolioHistoryEntry :=
  let cutoff := now - thirtyDaysMs
  sliceLast 500 (history.filter fun e => decide (cutoff ≤ e.timestamp))

/-- Default entry used to express indexing `history[0]` on a list that
the call site has already checked to be non-empty. -/
def defaultPriceEntry : PriceHistoryEntry := ⟨0, 0, 0⟩

/-- The baseline (`oldValue`) computed by `getTokenPriceChange`: the last
entry with `timestamp <= now - timeRangeHours * 3600000` if any exists,
otherwise the oldest entry `history[0]`. -/
def baselineValue (now : ℤ) (timeRangeHours : ℤ)
    (history : List PriceHistoryEntry) : ℚ :=
  let cutoff := now - timeRangeHours * hourMs
  match (history.filter fun e => decide (e.timestamp ≤ cutoff)).getLast? with
  | some e => e.value
  | none => (history.headD defaultPriceEntry).value

/-- getTokenPriceChange(tokenAddress, currentValue, priceHistory,
timeRangeHours): look up the token's series by lowercased address;
require at least 2 entries; compute the baseline; return null when both
baseline and current value are 0; otherwise return the absolute delta
and the percentage delta (100 when the baseline is 0 and the current
value positive, 0 when both current value and baseline are non-positive
with baseline 0). -/
def getTokenPriceChange (now : ℤ) (tokenAddress : String) (currentValue : ℚ)
    (priceHistory : TokenPriceHistory) (timeRangeHours : ℤ) : Option Delta :=
  match priceHistory.lookup (toLowerAscii tokenAddress) with
  | none => none
  | some history =>
    if history.length < 2 then none
    else
      let oldValue := baselineValue now timeRangeHours history
      if oldValue = 0 ∧ currentValue = 0 then none
      else
        some ⟨currentValue - oldValue,
          if 0 < oldValue then (currentValue - oldValue) / oldValue * 100
          else if 0 < currentValue then 100 else 0⟩

/-! ### Price resolution chain (fetchTokenPrices) -/

/-- upperSymbol as computed in the loop of `fetchTokenPrices`:
`token.symbol?.toUpperCase() || ''`. -/
def upperSymbolOf (token : Token) : String :=
  match token.symbol with
  | some s => toUpperAscii s
  | none => ""

/-- Resolution of a single token inside the loop of `fetchTokenPrices`.
The two fallible sources (the CoinGecko step and the pool step, each
already wrapped in `fetchWithRetry` and the request queue) are abstract
parameters `oracleFn` / `poolFn` returning `none` for a null result.
Branches, in code order: fixed 1.00 for upperSymbol "USDC" or the USDC
address; fixed 1.00 for an allow-listed stablecoin symbol other than
"EURC"; the oracle price when positive; the pool price when positive;
otherwise price 0 with source unknown. -/
def resolveTokenPrice (oracleFn poolFn : Token → Option ℚ) (now : ℤ)
    (token : Token) : PriceInfo :=
  let upperSymbol := upperSymbolOf token
  let addressLower := toLowerAscii token.contractAddress
  if upperSymbol = "USDC" ∨ addressLower = USDC_ADDRESS then
    ⟨1, PriceSource.fixed, now⟩
  else if upperSymbol ∈ STABLECOIN_SYMBOLS ∧ upperSymbol ≠ "EURC" then
    ⟨1, PriceSource.fixed, now⟩
  else
    match oracleFn token with
    | some p =>
      if 0 < p then ⟨p, PriceSource.oracle, now⟩
      else
        match poolFn token with
        | some q =>
          if 0 < q then ⟨q, PriceSource.onChain, now⟩
          else ⟨0, PriceSource.unknown, now⟩
        | none => ⟨0, PriceSource.unknown, now⟩
    | none =>
      match poolFn token with
      | some q =>
        if 0 < q then ⟨q, PriceSource.onChain, now⟩
        else ⟨0, PriceSource.unknown, now⟩
      | none => ⟨0, PriceSource.unknown, now⟩

/-- fetchTokenPrices: one priceMap.set per token, keyed by the lowercased
contract address, in list order. -/
def fetchTokenPrices (oracleFn poolFn : Token → Option ℚ) (now : ℤ)
    (tokens : List Token) : List (String × PriceInfo) :=
  tokens.map fun t =>
    (toLowerAscii t.contractAddress, resolveTokenPrice oracleFn poolFn now t)

/-! ### Series generator (WalletHistoryChart.generateInterpolatedData) -/

/-- Chart time range selector. -/
inductive TimeRange where
  | h24
  | w1
  | m1
deriving DecidableEq, Repr

/-- Interval configuration per range (getIntervalConfig). -/
structure IntervalConfig where
  intervalMs : ℤ
  maxPoints : ℕ
  cutoffMs : ℤ
deriving DecidableEq, Repr

/-- getIntervalConfig: 24h → 5-minute grid over 24 h; 1W → hourly grid
over 7 days; 1M → daily grid over 30 days. -/
def getIntervalConfig : TimeRange → IntervalConfig
  | TimeRange.h24 => ⟨5 * 60 * 1000, 288, 24 * 60 * 60 * 1000⟩
  | TimeRange.w1 => ⟨60 * 60 * 1000, 168, 7 * 24 * 60 * 60 * 1000⟩
  | TimeRange.m1 => ⟨24 * 60 * 60 * 1000, 30, 30 * 24 * 60 * 60 * 1000⟩

/-- Final adjustment of the generated points: if `now` is more than half
an interval past the last grid point, append a point at `now` carrying
the live current value, otherwise overwrite the last point's value with
it.  (On an empty list the enclosing `if (points.length > 0)` guard
skips the adjustment.) -/
def finalizePoints (points : List (ℤ × ℚ)) (now intervalMs : ℤ)
    (currentVal : ℚ) : List (ℤ × ℚ) :=
  match points.getLast? with
  | none => points
  | some lastPoint =>
    if (intervalMs : ℚ) / 2 < ((now - lastPoint.1 : ℤ) : ℚ) then
      points ++ [(now, currentVal)]
    else
      points.dropLast ++ [(lastPoint.1, currentVal)]

/-- The `dataForInterpolation` list of `generateInterpolatedData`: the
samples inside the window (`timestamp >= startTime`, in stored order)
prefixed, when it exists, with the last stored sample from before the
window. -/
def windowData (data : List PortfolioHistoryEntry) (startTime : ℤ) :
    List PortfolioHistoryEntry :=
  let inRangeData := data.filter fun p => decide (startTime ≤ p.timestamp)
  let beforeRangeData := data.filter fun p => decide (p.timestamp < startTime)
  match beforeRangeData.getLast? with
  | some lastBeforeRange => lastBeforeRange :: inRangeData
  | none => inRangeData

/-- The evenly spaced timestamps visited by the generation loop
`for (let ts = alignedStart; ts <= now; ts += intervalMs)`: when the
aligned start does not exceed `now` (and the interval is positive —
always the case for the three configurations) the loop runs
(now - alignedStart) / intervalMs + 1 times. -/
def gridTimestamps (alignedStart intervalMs now : ℤ) : List ℤ :=
  let steps : ℕ :=
    if alignedStart ≤ now then ((now - alignedStart) / intervalMs).toNat + 1
    else 0
  (List.range steps).map fun k => alignedStart + intervalMs * (k : ℤ)

/-- generateInterpolatedData for an explicit interval configuration: the
samples inside the window and the last sample before it form the
interpolation data; when that is empty a single synthetic point at `now`
with the live value is returned; otherwise the value is interpolated on
the evenly spaced grid from `Math.ceil(startTime / intervalMs) *
intervalMs` up to `now` and the final point is forced to the live value.
The label-thinning pass only blanks display labels and does not change
any (timestamp, value) pair, so it is not modelled.  The data points are
modelled as (timestamp, value) pairs. -/
def generateWithConfig (data : List PortfolioHistoryEntry)
    (config : IntervalConfig) (now : ℤ) (currentVal : ℚ) : List (ℤ × ℚ) :=
  let startTime := now - config.cutoffMs
  let dataForInterpolation := windowData data startTime
  if dataForInterpolation = [] then [(now, currentVal)]
  else
    let alignedStart :=
      ⌈(startTime : ℚ) / (config.intervalMs : ℚ)⌉ * config.intervalMs
    let points :=
      (gridTimestamps alignedStart config.intervalMs now).map fun ts =>
        (ts, interpolateValue ts dataForInterpolation)
    finalizePoints points now config.intervalMs currentVal

/-- generateInterpolatedData(data, range, currentVal) with `now` passed
explicitly. -/
def generateInterpolatedData (data : List PortfolioHistoryEntry)
    (range : TimeRange) (now : ℤ) (currentVal : ℚ) : List (ℤ × ℚ) :=
  generateWithConfig data (getIntervalConfig range) now currentVal

/-! ### Concrete inputs used by witnesses -/

/-- Operation failing on attempts 0 and 1 and succeeding on attempt 2. -/
def retryOpLateSuccess : ℕ → Option ℕ := fun i => if i < 2 then none else some 42

/-- Operation failing on every attempt. -/
def retryOpAlwaysFails : ℕ → Option ℕ := fun _ => none

/-- Five immediately-resolving queued operations (duration 0 each). -/
def immediateDurs : List ℕ := [0, 0, 0, 0, 0]

/-- Oracle source that always reports price 99. -/
def oracleAvail : Token → Option ℚ := fun _ => some 99

/-- Pool source that always reports price 77. -/
def poolAvail : Token → Option ℚ := fun _ => some 77

/-- Token with an allow-listed stablecoin symbol. -/
def usdtToken : Token := ⟨"0xdeadbeef", some "usdt"⟩

/-- Token whose address is the USDC constant. -/
def usdcAddrToken : Token :=
  ⟨"0x3600000000000000000000000000000000000000", none⟩

/-- Two-sample portfolio history, one entry outside the 30-day window. -/
def histC : List PortfolioHistoryEntry := [⟨5, -1, []⟩, ⟨6, 10, []⟩]

/-- One-token price history with one entry outside the 30-day window. -/
def phC : TokenPriceHistory := [("0xa", [⟨1, 1, -1⟩, ⟨2, 2, 5⟩])]

/-- Price history whose token has exactly one stored sample. -/
def singleHistory : TokenPriceHistory := [("0xabc", [⟨1, 100, 0⟩])]

/-- Price history whose token has two samples, both inside any recent
query window. -/
def twoHistory : TokenPriceHistory :=
  [("0xabc", [⟨1, 100, 90 * hourMs⟩, ⟨1, 120, 95 * hourMs⟩])]

/-- Price history whose token has two samples with value 0. -/
def zeroHistory : TokenPriceHistory := [("0xa", [⟨1, 0, 0⟩, ⟨1, 0, 50⟩])]

/-- Two-sample portfolio series for the interpolation claims. -/
def interpData : List PortfolioHistoryEntry := [⟨10, 0, []⟩, ⟨20, 100, []⟩]

/-! ### Helper lemmas -/

theorem mem_of_getLastQ {α : Type _} {l : List α} {a : α}
    (h : l.getLast? = some a) : a ∈ l := by
  have hne : l ≠ [] := by
    intro he
    subst he
    simp at h
  rw [List.getLast?_eq_getLast l hne, Option.some.injEq] at h
  exact h ▸ List.getLast_mem hne

theorem mem_of_headQ {α : Type _} {l : List α} {a : α}
    (h : l.head? = some a) : a ∈ l := by
  cases l with
  | nil => simp at h
  | cons x xs =>
    simp only [List.head?_cons, Option.some.injEq] at h
    rw [← h]
    exact List.mem_cons_self x xs

theorem sliceLast_suffix {α : Type _} (n : ℕ) (l : List α) :
    sliceLast n l <:+ l :=
  List.drop_suffix _ _

theorem sliceLast_length_le {α : Type _} (n : ℕ) (l : List α) :
    (sliceLast n l).length ≤ n := by
  simp only [sliceLast, List.length_drop]
  omega

theorem mem_of_mem_sliceLast {α : Type _} {n : ℕ} {l : List α} {a : α}
    (h : a ∈ sliceLast n l) : a ∈ l :=
  List.mem_of_mem_drop h

/-! ### C1: on-chain pool price -/

/-- C1: for a pool whose ordering accessor reports the queried token is
not tokenA, with normalized token reserve 500 (18 decimals) and USDC
reserve 1000 (6 decimals), `fetchPriceFromPoolInternal` computes price
1000/500 = 2; and whenever the normalized token reserve is 0, it returns
price 0 instead of dividing. -/
theorem poolPrice_spec :
    fetchPriceFromPoolCore false (1000 * 10 ^ 6) (500 * 10 ^ 18) 18 = 2 ∧
    ∀ (isTokenA : Bool) (reserve0 reserve1 tokenDecimals : ℕ),
      formatUnits (if isTokenA then reserve0 else reserve1) tokenDecimals = 0 →
      fetchPriceFromPoolCore isTokenA reserve0 reserve1 tokenDecimals = 0 := by
  constructor
  · norm_num [fetchPriceFromPoolCore, formatUnits]
  · intro isTokenA reserve0 reserve1 tokenDecimals h
    simp only [fetchPriceFromPoolCore]
    rw [if_pos h]

/-- Witness for C1: an all-zero reserve on the tokenA side yields
price 0. -/
theorem poolPrice_spec_witness :
    fetchPriceFromPoolCore true 0 12345 6 = 0 :=
  poolPrice_spec.2 true 0 12345 6 (by norm_num [formatUnits])

/-! ### C5: linear interpolation between stored samples -/

/-- C5: with stored samples (t=0, value 10) and (t=100, value 20), the
interpolated series value at t=50 is exactly 15, and at t=150 — beyond
the last sample — it clamps to 20. -/
theorem interpolate_midpoint_clamp :
    interpolateValue 50 interpData = 15 ∧
    interpolateValue 150 interpData = 20 := by
  constructor
  · norm_num [interpolateValue, interpData]
  · norm_num [interpolateValue, interpData]

/-! ### C7: fixed stablecoin prices -/

/-- C7: every token whose uppercased symbol is "USDC" or whose
lowercased address equals the USDC constant, and every token whose
uppercased symbol is allow-listed and differs from "EURC", resolves to
price 1.00 with source fixed, for every behaviour of the external price
API and of the on-chain pool source. -/
theorem stablecoin_fixed_price (oracleFn poolFn : Token → Option ℚ)
    (now : ℤ) (t : Token) :
    ((upperSymbolOf t = "USDC" ∨ toLowerAscii t.contractAddress = USDC_ADDRESS) →
      resolveTokenPrice oracleFn poolFn now t = ⟨1, PriceSource.fixed, now⟩) ∧
    ((upperSymbolOf t ∈ STABLECOIN_SYMBOLS ∧ upperSymbolOf t ≠ "EURC") →
      resolveTokenPrice oracleFn poolFn now t = ⟨1, PriceSource.fixed, now⟩) := by
  constructor
  · intro h
    simp only [resolveTokenPrice]
    rw [if_pos h]
  · intro h
    simp only [resolveTokenPrice]
    by_cases h1 : upperSymbolOf t = "USDC" ∨ toLowerAscii t.contractAddress = USDC_ADDRESS
    · rw [if_pos h1]
    · rw [if_neg h1, if_pos h]

/-- Witness for C7: with both external sources available (and reporting
wrong prices), a USDT-symbol token and the USDC-address token both
resolve to fixed 1.00. -/
theorem stablecoin_fixed_price_witness :
    resolveTokenPrice oracleAvail poolAvail 0 usdtToken =
      ⟨1, PriceSource.fixed, 0⟩ ∧
    resolveTokenPrice oracleAvail poolAvail 0 usdcAddrToken =
      ⟨1, PriceSource.fixed, 0⟩ :=
  ⟨(stablecoin_fixed_price oracleAvail poolAvail 0 usdtToken).2
      (by constructor <;> decide),
   (stablecoin_fixed_price oracleAvail poolAvail 0 usdcAddrToken).1
      (Or.inr (by decide))⟩

/-! ### C8: delta query with zero baseline -/

/-- C8: when the baseline computed by `getTokenPriceChange` is 0, a
current value of 0 gives null (no NaN, no division error) and a positive
current value gives a percentage delta of exactly 100 (with the absolute
delta equal to the current value). -/
theorem delta_zero_baseline (now : ℤ) (addr : String) (c : ℚ)
    (ph : TokenPriceHistory) (hours : ℤ) (h : List PriceHistoryEntry)
    (hlook : ph.lookup (toLowerAscii addr) = some h) (hlen : 2 ≤ h.length)
    (hbase : baselineValue now hours h = 0) :
    (c = 0 → getTokenPriceChange now addr c ph hours = none) ∧
    (0 < c → getTokenPriceChange now addr c ph hours = some ⟨c, 100⟩) := by
  simp only [getTokenPriceChange, hlook]
  rw [if_neg (by omega)]
  rw [hbase]
  constructor
  · intro hc
    rw [if_pos ⟨rfl, hc⟩]
  · intro hc
    rw [if_neg (by rintro ⟨-, h0⟩; rw [h0] at hc; exact lt_irrefl 0 hc)]
    rw [if_neg (by norm_num), if_pos hc]
    simp

/-- Witness for C8: a token whose two stored samples both have value 0
yields null at current value 0 and percentage 100 at current value 5. -/
theorem delta_zero_baseline_witness :
    getTokenPriceChange (100 * hourMs) "0xa" 0 zeroHistory 24 = none ∧
    getTokenPriceChange (100 * hourMs) "0xa" 5 zeroHistory 24 =
      some ⟨5, 100⟩ :=
  ⟨(delta_zero_baseline (100 * hourMs) "0xa" 0 zeroHistory 24
      [⟨1, 0, 0⟩, ⟨1, 0, 50⟩]
      (by decide) (by decide) (by decide)).1 rfl,
   (delta_zero_baseline (100 * hourMs) "0xa" 5 zeroHistory 24
      [⟨1, 0, 0⟩, ⟨1, 0, 50⟩]
      (by decide) (by decide) (by decide)).2
      (by norm_num)⟩

/-! ### C4: delta query with a single stored sample -/

/-- C4 counterexample: with exactly one stored sample (value 100 at
t = 0) and current value 150, `getTokenPriceChange` returns null — not
the claimed absolute delta 50 with percentage delta 50 — because the
code requires at least two stored samples before computing anything. -/
theorem delta_single_sample_null :
    getTokenPriceChange (100 * hourMs) "0xabc" 150 singleHistory 24 =
      none := by
  decide

/-- C4 amended: a history with exactly one stored sample makes
`getTokenPriceChange` return null; the fallback to the oldest sample
only applies once at least two samples exist: then, when no sample lies
at or before now - windowHours, the baseline is the oldest stored
sample's value. -/
theorem delta_oldest_fallback (now : ℤ) (addr : String) (c : ℚ)
    (ph : TokenPriceHistory) (hours : ℤ) :
    (∀ e, ph.lookup (toLowerAscii addr) = some [e] →
      getTokenPriceChange now addr c ph hours = none) ∧
    (∀ h, ph.lookup (toLowerAscii addr) = some h → 2 ≤ h.length →
      (∀ x ∈ h, now - hours * hourMs < x.timestamp) →
      ¬((h.headD defaultPriceEntry).value = 0 ∧ c = 0) →
      getTokenPriceChange now addr c ph hours =
        some ⟨c - (h.headD defaultPriceEntry).value,
          if 0 < (h.headD defaultPriceEntry).value then
            (c - (h.headD defaultPriceEntry).value) /
              (h.headD defaultPriceEntry).value * 100
          else if 0 < c then 100 else 0⟩) := by
  constructor
  · intro e hlook
    simp [getTokenPriceChange, hlook]
  · intro h hlook hlen hfresh hnz
    have hbase : baselineValue now hours h = (h.headD defaultPriceEntry).value := by
      have hnil : (h.filter fun e =>
          decide (e.timestamp ≤ now - hours * hourMs)) = [] := by
        rw [List.filter_eq_nil_iff]
        intro a ha
        simpa using not_le.mpr (hfresh a ha)
      simp only [baselineValue, hourMs] at hnil ⊢
      rw [hnil]
      rfl
    simp only [getTokenPriceChange, hlook]
    rw [if_neg (by omega), hbase, if_neg hnz]

/-- Witness for C4: the one-sample history gives null; the two-sample
history entirely inside the 24 h window gives the delta against the
oldest sample: current 150 against baseline 100 yields delta 50 and
percentage 50. -/
theorem delta_oldest_fallback_witness :
    getTokenPriceChange (100 * hourMs) "0xabc" 150 singleHistory 24 = none ∧
    getTokenPriceChange (100 * hourMs) "0xabc" 150 twoHistory 24 =
      some ⟨50, 50⟩ := by
  constructor
  · exact (delta_oldest_fallback (100 * hourMs) "0xabc" 150 singleHistory
      24).1 ⟨1, 100, 0⟩ (by decide)
  · have h := (delta_oldest_fallback (100 * hourMs) "0xabc" 150 twoHistory
      24).2 [⟨1, 100, 90 * hourMs⟩, ⟨1, 120, 95 * hourMs⟩]
      (by decide) (by decide)
      (by intro x hx; fin_cases hx <;> norm_num [hourMs])
      (by norm_num [defaultPriceEntry])
    rw [h]
    norm_num [defaultPriceEntry]

/-! ### C3: rolling retention of the history store -/

/-- C3: after a save, the portfolio series holds at most 500 entries,
every retained entry has timestamp at least now - 30 days, and the
retained entries are a suffix — hence the most recent ones — of the
in-window entries in stored order; the per-token price series likewise
holds, per token, at most 100 in-window entries forming a suffix of that
token's in-window entries.  In particular a 600-sample series spanning
more than 30 days is cut to at most 500 entries, all inside the
window. -/
theorem history_retention (now : ℤ) (hist : List PortfolioHistoryEntry)
    (ph : TokenPriceHistory) :
    (savePortfolioHistoryCore now hist).length ≤ 500 ∧
    (∀ e ∈ savePortfolioHistoryCore now hist,
      now - thirtyDaysMs ≤ e.timestamp) ∧
    savePortfolioHistoryCore now hist <:+
      hist.filter (fun e => decide (now - thirtyDaysMs ≤ e.timestamp)) ∧
    (∀ p ∈ savePriceHistoryCore now ph,
      p.2.length ≤ 100 ∧
      (∀ e ∈ p.2, now - thirtyDaysMs ≤ e.timestamp) ∧
      ∃ entries, (p.1, entries) ∈ ph ∧
        p.2 <:+ entries.filter
          (fun e => decide (now - thirtyDaysMs ≤ e.timestamp))) := by
  simp only [savePortfolioHistoryCore, savePriceHistoryCore]
  refine ⟨sliceLast_length_le _ _, ?_, sliceLast_suffix _ _, ?_⟩
  · intro e he
    have h1 : e ∈ hist.filter fun x => decide (now - thirtyDaysMs ≤ x.timestamp) :=
      mem_of_mem_sliceLast he
    have h2 := List.of_mem_filter h1
    exact of_decide_eq_true h2
  · intro p hp
    simp only [List.mem_map] at hp
    obtain ⟨q, hq, rfl⟩ := hp
    refine ⟨sliceLast_length_le _ _, ?_, q.2, hq, sliceLast_suffix _ _⟩
    intro e he
    dsimp only at he
    have h1 : e ∈ q.2.filter fun x => decide (now - thirtyDaysMs ≤ x.timestamp) :=
      mem_of_mem_sliceLast he
    have h2 := List.of_mem_filter h1
    exact of_decide_eq_true h2

/-- Witness for C3: with a series holding one entry 30 days + 1 ms old
and one fresh entry, the save keeps at most 500 entries and the retained
fresh entry is inside the window; the per-token store keeps its fresh
entry inside the window as well. -/
theorem history_retention_witness :
    (savePortfolioHistoryCore thirtyDaysMs histC).length ≤ 500 ∧
    thirtyDaysMs - thirtyDaysMs ≤ (10 : ℤ) ∧
    (savePriceHistoryCore thirtyDaysMs phC).length = 1 := by
  refine ⟨(history_retention thirtyDaysMs histC phC).1, ?_, by decide⟩
  exact (history_retention thirtyDaysMs histC phC).2.1 ⟨6, 10, []⟩ (by decide)

/-! ### C2: retry wrapper -/

theorem fetchWithRetryGo_success {α : Type _} (op : ℕ → Option α)
    (n d j : ℕ) (v : α) (hj : j < n) (hv : op j = some v) :
    ∀ m i, j - i = m → i ≤ j → (∀ k, i ≤ k → k < j → op k = none) →
    fetchWithRetryGo op n d i =
      (some v, (List.range' (i + 1) (j - i)).map fun x => d * x) := by
  intro m
  induction m with
  | zero =>
    intro i hm hij _hfail
    have hieq : i = j := by omega
    subst hieq
    rw [fetchWithRetryGo]
    rw [dif_pos hj, hv]
    simp [hm]
  | succ m ih =>
    intro i hm hij hfail
    have hij' : i < j := by omega
    have hi_n : i < n := by omega
    have hfi : op i = none := hfail i le_rfl hij'
    rw [fetchWithRetryGo]
    rw [dif_pos hi_n, hfi]
    simp only
    rw [if_pos (by omega : i < n - 1)]
    rw [ih (i + 1) (by omega) (by omega)
      (fun k hk1 hk2 => hfail k (by omega) hk2)]
    have hsplit : j - i = (j - (i + 1)) + 1 := by omega
    rw [hsplit, List.range'_succ]
    simp

theorem fetchWithRetryGo_allfail {α : Type _} (op : ℕ → Option α)
    (n d : ℕ) (hfail : ∀ k, k < n → op k = none) :
    ∀ m i, n - i = m →
    fetchWithRetryGo op n d i =
      (none, (List.range' (i + 1) (n - 1 - i)).map fun x => d * x) := by
  intro m
  induction m with
  | zero =>
    intro i hm
    rw [fetchWithRetryGo]
    rw [dif_neg (by omega)]
    have h0 : n - 1 - i = 0 := by omega
    rw [h0]
    simp
  | succ m ih =>
    intro i hm
    have hi : i < n := by omega
    have hfi := hfail i hi
    rw [fetchWithRetryGo]
    rw [dif_pos hi, hfi]
    simp only
    by_cases hc : i < n - 1
    · rw [if_pos hc, ih (i + 1) (by omega)]
      have h1 : n - 1 - i = (n - 1 - (i + 1)) + 1 := by omega
      rw [h1, List.range'_succ]
      simp
    · rw [if_neg hc, ih (i + 1) (by omega)]
      have h1 : n - 1 - i = 0 := by omega
      have h2 : n - 1 - (i + 1) = 0 := by omega
      rw [h1, h2]
      simp

/-- C2: the retry wrapper attempts the operation at most `n` times,
sleeping `d * attemptNumber` between consecutive attempts (linear
backoff): if the first success is at 0-based attempt `j < n` it returns
that result after the delays d*1, ..., d*j, and if all `n` attempts fail
it returns the null sentinel after the delays d*1, ..., d*(n-1), never
propagating the failures. -/
theorem fetchWithRetry_spec {α : Type _} (op : ℕ → Option α) (n d : ℕ) :
    (∀ j v, j < n → (∀ i, i < j → op i = none) → op j = some v →
      fetchWithRetry op n d =
        (some v, (List.range j).map fun k => d * (k + 1))) ∧
    ((∀ i, i < n → op i = none) →
      fetchWithRetry op n d =
        (none, (List.range (n - 1)).map fun k => d * (k + 1))) := by
  constructor
  · intro j v hj hfail hv
    rw [fetchWithRetry,
      fetchWithRetryGo_success op n d j v hj hv j 0 rfl (by omega)
        (fun k _hk1 hk2 => hfail k hk2)]
    rw [List.range'_eq_map_range]
    simp [List.map_map, Function.comp, Nat.add_comm]
  · intro hfail
    rw [fetchWithRetry, fetchWithRetryGo_allfail op n d hfail n 0 rfl]
    rw [List.range'_eq_map_range]
    simp [List.map_map, Function.comp, Nat.add_comm]

/-- Witness for C2: an operation failing on attempts 1 and 2 and
succeeding on attempt 3 returns the success value 42 after waits of 5
and 10 ms (base delay 5); one failing all 3 attempts returns the null
sentinel. -/
theorem fetchWithRetry_spec_witness :
    fetchWithRetry retryOpLateSuccess 3 5 = (some 42, [5, 10]) ∧
    fetchWithRetry retryOpAlwaysFails 3 5 = (none, [5, 10]) := by
  constructor
  · have h := (fetchWithRetry_spec retryOpLateSuccess 3 5).1 2 42 (by omega)
      (by intro i hi; interval_cases i <;> rfl) rfl
    rw [h]
    rfl
  · have h := (fetchWithRetry_spec retryOpAlwaysFails 3 5).2
      (by intro i _hi; rfl)
    rw [h]
    rfl

/-! ### C6: rate-limited request queue -/

theorem drainTraceGo_map_fst (d : ℕ) :
    ∀ (durs : List ℕ) (i t : ℕ),
    (drainTraceGo d durs i t).map Prod.fst = List.range' i durs.length := by
  intro durs
  induction durs with
  | nil => intro i t; rfl
  | cons dur rest ih =>
    intro i t
    simp only [drainTraceGo, List.map_cons, List.length_cons,
      List.range'_succ]
    rw [ih]

theorem drainTraceGo_length (d : ℕ) :
    ∀ (durs : List ℕ) (i t : ℕ),
    (drainTraceGo d durs i t).length = durs.length := by
  intro durs
  induction durs with
  | nil => intro i t; rfl
  | cons dur rest ih =>
    intro i t
    simp only [drainTraceGo, List.length_cons]
    rw [ih]

theorem drainTraceGo_getD_succ (d : ℕ) :
    ∀ (durs : List ℕ) (i t k : ℕ), k + 1 < durs.length →
    ((drainTraceGo d durs i t).getD (k + 1) (0, 0)).2 =
      ((drainTraceGo d durs i t).getD k (0, 0)).2 + durs.getD k 0 + d := by
  intro durs
  induction durs with
  | nil => intro i t k hk; simp at hk
  | cons dur rest ih =>
    intro i t k hk
    cases k with
    | zero =>
      cases rest with
      | nil => simp at hk
      | cons r rs =>
        simp [drainTraceGo]
    | succ k' =>
      simp only [drainTraceGo, List.getD_cons_succ]
      exact ih (i + 1) (t + dur + d) k' (by simpa using hk)

theorem drainTraceGo_getD_lower (d : ℕ) :
    ∀ (durs : List ℕ) (i t k : ℕ), k < durs.length →
    t + k * d ≤ ((drainTraceGo d durs i t).getD k (0, 0)).2 := by
  intro durs
  induction durs with
  | nil => intro i t k hk; simp at hk
  | cons dur rest ih =>
    intro i t k hk
    cases k with
    | zero => simp [drainTraceGo]
    | succ k' =>
      simp only [drainTraceGo, List.getD_cons_succ]
      have h := ih (i + 1) (t + dur + d) k' (by simpa using hk)
      have hm : (k' + 1) * d = k' * d + d := by ring
      omega

/-- C6: the drain loop of the rate-limited queue dispatches the queued
operations strictly one at a time in enqueue (FIFO) order — the k-th
dispatched operation is the k-th enqueued — and each next dispatch
starts exactly after the previous operation's own duration plus the
fixed inter-call delay; consequently the k-th operation starts no
earlier than k times the minimum interval, so the 5th of 5
immediately-resolving operations starts at or after 4 delays. -/
theorem requestQueue_fifo_spacing (d : ℕ) (durs : List ℕ) :
    (drainTrace d durs).map Prod.fst = List.range durs.length ∧
    (∀ k, k + 1 < (drainTrace d durs).length →
      ((drainTrace d durs).getD (k + 1) (0, 0)).2 =
        ((drainTrace d durs).getD k (0, 0)).2 + durs.getD k 0 + d) ∧
    (∀ k, k < (drainTrace d durs).length →
      k * d ≤ ((drainTrace d durs).getD k (0, 0)).2) := by
  simp only [drainTrace]
  refine ⟨?_, ?_, ?_⟩
  · rw [drainTraceGo_map_fst, List.range_eq_range']
  · intro k hk
    exact drainTraceGo_getD_succ d durs 0 0 k
      (by rwa [drainTraceGo_length] at hk)
  · intro k hk
    have h := drainTraceGo_getD_lower d durs 0 0 k
      (by rwa [drainTraceGo_length] at hk)
    omega

/-- Witness for C6: five immediately-resolving operations with a minimum
interval of 7 ms are dispatched in enqueue order and the 5th starts at
time 28 = 4 × 7. -/
theorem requestQueue_fifo_spacing_witness :
    (drainTrace 7 immediateDurs).map Prod.fst = List.range 5 ∧
    4 * 7 ≤ ((drainTrace 7 immediateDurs).getD 4 (0, 0)).2 :=
  ⟨(requestQueue_fifo_spacing 7 immediateDurs).1,
   (requestQueue_fifo_spacing 7 immediateDurs).2.2 4 (by decide)⟩

/-! ### C10: interpolation never leaves the data's range -/

theorem getLastD_mem_of_ne_nil {α : Type _} {l : List α} (d : α)
    (h : l ≠ []) : l.getLastD d ∈ l := by
  rw [List.getLastD_eq_getLast?, List.getLast?_eq_getLast l h]
  exact List.getLast_mem h

/-- C10: for every timestamp and every non-empty history (in any
timestamp order), the interpolated value lies between any lower bound
and any upper bound of the stored totalValue entries — edge clamping
returns a sample value and interior interpolation is a convex
combination of two sample values. -/
theorem interpolate_within_bounds (t : ℤ)
    (data : List PortfolioHistoryEntry) (lo hi : ℚ) (hne : data ≠ [])
    (hlo : ∀ e ∈ data, lo ≤ e.totalValue)
    (hhi : ∀ e ∈ data, e.totalValue ≤ hi) :
    lo ≤ interpolateValue t data ∧ interpolateValue t data ≤ hi := by
  match data, hne with
  | [d], _ =>
    have hm : d ∈ [d] := List.mem_cons_self d []
    exact ⟨hlo d hm, hhi d hm⟩
  | d₀ :: d₁ :: rest, _ =>
    have hm₀ : d₀ ∈ d₀ :: d₁ :: rest := List.mem_cons_self _ _
    simp only [interpolateValue]
    rcases hgl : ((d₀ :: d₁ :: rest).filter
        fun d => decide (d.timestamp ≤ t)).getLast? with _ | prev
    · simp only [hgl]
      exact ⟨hlo d₀ hm₀, hhi d₀ hm₀⟩
    · simp only [hgl]
      have hprevf := mem_of_getLastQ hgl
      have hprev_mem : prev ∈ d₀ :: d₁ :: rest :=
        List.mem_of_mem_filter hprevf
      have hprevb := List.of_mem_filter hprevf
      have hprev_le : prev.timestamp ≤ t := of_decide_eq_true hprevb
      rcases hh : ((d₀ :: d₁ :: rest).filter
          fun d => decide (t < d.timestamp)).head? with _ | next
      · simp only [hh]
        have hlm := getLastD_mem_of_ne_nil d₀
          (List.cons_ne_nil d₀ (d₁ :: rest))
        exact ⟨hlo _ hlm, hhi _ hlm⟩
      · simp only [hh]
        have hnextf := mem_of_headQ hh
        have hnext_mem : next ∈ d₀ :: d₁ :: rest :=
          List.mem_of_mem_filter hnextf
        have hnextb := List.of_mem_filter hnextf
        have hnext_gt : t < next.timestamp := of_decide_eq_true hnextb
        by_cases h0 : next.timestamp - prev.timestamp = 0
        · rw [if_pos h0]
          exact ⟨hlo prev hprev_mem, hhi prev hprev_mem⟩
        · rw [if_neg h0]
          have hdpos : (0 : ℚ) < ((next.timestamp - prev.timestamp : ℤ) : ℚ) := by
            have : (0 : ℤ) < next.timestamp - prev.timestamp := by omega
            exact_mod_cast this
          have hr0 : 0 ≤ ((t - prev.timestamp : ℤ) : ℚ) /
              ((next.timestamp - prev.timestamp : ℤ) : ℚ) := by
            apply div_nonneg _ (le_of_lt hdpos)
            have : (0 : ℤ) ≤ t - prev.timestamp := by omega
            exact_mod_cast this
          have hr1 : ((t - prev.timestamp : ℤ) : ℚ) /
              ((next.timestamp - prev.timestamp : ℤ) : ℚ) ≤ 1 := by
            rw [div_le_one hdpos]
            have : (t - prev.timestamp : ℤ) ≤ next.timestamp - prev.timestamp := by
              omega
            exact_mod_cast this
          have hplo := hlo prev hprev_mem
          have hphi := hhi prev hprev_mem
          have hnlo := hlo next hnext_mem
          have hnhi := hhi next hnext_mem
          constructor
          · nlinarith [mul_nonneg (sub_nonneg.mpr hplo) (sub_nonneg.mpr hr1),
              mul_nonneg (sub_nonneg.mpr hnlo) hr0]
          · nlinarith [mul_nonneg (sub_nonneg.mpr hphi) (sub_nonneg.mpr hr1),
              mul_nonneg (sub_nonneg.mpr hnhi) hr0]

/-- Witness for C10: the interpolated value of the concrete two-sample
series at the midpoint timestamp stays within the samples' value
range. -/
theorem interpolate_within_bounds_witness :
    10 ≤ interpolateValue 50 interpData ∧
    interpolateValue 50 interpData ≤ 20 :=
  interpolate_within_bounds 50 interpData 10 20 (by decide)
    (by intro e he; fin_cases he <;> norm_num)
    (by intro e he; fin_cases he <;> norm_num)

/-! ### C9: the generated series ends at the live current value -/

theorem windowData_eq_nil_iff (data : List PortfolioHistoryEntry)
    (startTime : ℤ) : windowData data startTime = [] ↔ data = [] := by
  constructor
  · intro h
    simp only [windowData] at h
    split at h
    · exact absurd h (List.cons_ne_nil _ _)
    · rename_i heq
      have hbe := List.getLast?_eq_none_iff.mp heq
      have hallb := List.filter_eq_nil_iff.mp hbe
      have halli := List.filter_eq_nil_iff.mp h
      rw [List.eq_nil_iff_forall_not_mem]
      intro a ha
      have h1 := hallb a ha
      have h2 := halli a ha
      simp at h1 h2
      omega
  · intro h
    subst h
    rfl

theorem alignedStart_le_now (now i c : ℤ) (hi : 0 < i) (hc : i ≤ c) :
    ⌈((now - c : ℤ) : ℚ) / (i : ℚ)⌉ * i ≤ now := by
  generalize hg : now - c = s
  have hs : s + i ≤ now := by omega
  have hiq : (0 : ℚ) < (i : ℚ) := by exact_mod_cast hi
  have h1 : (⌈(s : ℚ) / (i : ℚ)⌉ : ℚ) < (s : ℚ) / (i : ℚ) + 1 :=
    Int.ceil_lt_add_one _
  have h2 : (⌈(s : ℚ) / (i : ℚ)⌉ : ℚ) * (i : ℚ) <
      ((s : ℚ) / (i : ℚ) + 1) * (i : ℚ) :=
    mul_lt_mul_of_pos_right h1 hiq
  rw [add_mul, one_mul, div_mul_cancel₀ _ (ne_of_gt hiq)] at h2
  have h3 : ((s : ℚ) + (i : ℚ)) ≤ (now : ℚ) := by exact_mod_cast hs
  have h4 : ((⌈(s : ℚ) / (i : ℚ)⌉ * i : ℤ) : ℚ) < ((now : ℤ) : ℚ) := by
    push_cast
    linarith
  exact le_of_lt (by exact_mod_cast h4)

theorem gridTimestamps_ne_nil (alignedStart intervalMs now : ℤ)
    (h : alignedStart ≤ now) :
    gridTimestamps alignedStart intervalMs now ≠ [] := by
  simp only [gridTimestamps]
  rw [if_pos h]
  simp
  exact ⟨0, Nat.succ_pos _⟩

theorem finalizePoints_last (points : List (ℤ × ℚ)) (now intervalMs : ℤ)
    (v : ℚ) (hne : points ≠ []) :
    finalizePoints points now intervalMs v ≠ [] ∧
    ∃ ts, (finalizePoints points now intervalMs v).getLast? =
      some (ts, v) := by
  obtain ⟨last, hlast⟩ : ∃ l, points.getLast? = some l := by
    cases hp : points.getLast? with
    | none => exact absurd (List.getLast?_eq_none_iff.mp hp) hne
    | some l => exact ⟨l, rfl⟩
  simp only [finalizePoints, hlast]
  split_ifs with hcond
  · exact ⟨by simp, now, List.getLast?_concat _⟩
  · exact ⟨by simp, last.1, List.getLast?_concat _⟩

/-- C9: for every stored history, range configuration and live current
value, the generated display series is non-empty and its final point
carries exactly the live current value (the last grid point is
overwritten or a point at `now` appended); when there are no stored
samples at all, the series is the single synthetic point at `now` with
the live value. -/
theorem generated_series_ends_at_current (data : List PortfolioHistoryEntry)
    (range : TimeRange) (now : ℤ) (currentVal : ℚ) :
    generateInterpolatedData data range now currentVal ≠ [] ∧
    (∃ ts, (generateInterpolatedData data range now currentVal).getLast? =
      some (ts, currentVal)) ∧
    (data = [] →
      generateInterpolatedData data range now currentVal =
        [(now, currentVal)]) := by
  have hic : 0 < (getIntervalConfig range).intervalMs ∧
      (getIntervalConfig range).intervalMs ≤
        (getIntervalConfig range).cutoffMs := by
    cases range <;> constructor <;> decide
  rw [generateInterpolatedData]
  generalize hcfg : getIntervalConfig range = config at hic
  obtain ⟨hi, hc⟩ := hic
  simp only [generateWithConfig]
  by_cases hfi : windowData data (now - config.cutoffMs) = []
  · rw [if_pos hfi]
    have hd : data = [] := (windowData_eq_nil_iff data _).mp hfi
    exact ⟨by simp, ⟨now, rfl⟩, fun _ => rfl⟩
  · rw [if_neg hfi]
    have hd : data ≠ [] := fun h =>
      hfi ((windowData_eq_nil_iff data _).mpr h)
    have hle : ⌈((now - config.cutoffMs : ℤ) : ℚ) /
        (config.intervalMs : ℚ)⌉ * config.intervalMs ≤ now :=
      alignedStart_le_now now config.intervalMs config.cutoffMs hi hc
    have hgne := gridTimestamps_ne_nil _ config.intervalMs now hle
    have hpne : (gridTimestamps
        (⌈((now - config.cutoffMs : ℤ) : ℚ) / (config.intervalMs : ℚ)⌉ *
          config.intervalMs) config.intervalMs now).map
        (fun ts => (ts, interpolateValue ts
          (windowData data (now - config.cutoffMs)))) ≠ [] := by
      intro h
      exact hgne (List.map_eq_nil_iff.mp h)
    have hf := finalizePoints_last _ now config.intervalMs currentVal hpne
    exact ⟨hf.1, hf.2, fun h => absurd h hd⟩

/-- Witness for C9: with no stored history the 24 h series is the single
point at `now` carrying the live value 5, and with a two-sample stored
history the generated series is non-empty. -/
theorem generated_series_ends_at_current_witness :
    generateInterpolatedData [] TimeRange.h24 1000000 5 = [(1000000, 5)] ∧
    generateInterpolatedData interpData TimeRange.h24 86900000 42 ≠ [] :=
  ⟨(generated_series_ends_at_current [] TimeRange.h24 1000000 5).2.2 rfl,
   (generated_series_ends_at_current interpData TimeRange.h24
      86900000 42).1⟩

end ArcDashboard
